import Mathlib

/-! # ripit: request-transcript parser and response line wrapper

A shallow embedding of `src/main.go` (`parseHTTPRequest`, `wrapText`) together with the
parts of the Go standard library these functions call (`strings.Index`, `strings.Contains`,
`strings.Split`, `strings.SplitN`, `bufio.Scanner` with its default `ScanLines` splitter).

Go strings and byte slices are sequences of bytes: they are embedded as lists of byte
values.  String literals of the source are written with `str`; all of them are ASCII, where
the code point of a character is its byte.
-/

namespace Ripit

/-- A byte value (`0 .. 255`). -/
abbrev Byte := Nat

/-- A Go `string` / `[]byte`: a sequence of bytes. `len(s)` is `s.length`. -/
abbrev GoString := List Byte

/-- The bytes of an ASCII string literal. -/
def str (s : String) : GoString := s.toList.map Char.toNat

/-! ## `strings` -/

/-- The function `strings.HasPrefix(s, pre)`. -/
def HasPrefix (s pre : GoString) : Bool := pre.isPrefixOf s

/-- The function `strings.Index(s, sep)`: the index of the first occurrence of `sep` in `s`;
`none` is Go's `-1`. -/
def Index : GoString → GoString → Option Nat
  | [], sep => if sep.isEmpty then some 0 else none
  | b :: bs, sep => if HasPrefix (b :: bs) sep then some 0 else (Index bs sep).map (· + 1)

/-- The function `strings.Contains(s, substr)`, which is `Index(s, substr) >= 0`. -/
def Contains (s substr : GoString) : Bool := (Index s substr).isSome

/-- The loop of `strings.genSplit` for a non-empty separator and `sepSave = 0`: at most
`cuts` times, cut `s` at the first occurrence of `sep`; what is left is the last piece. -/
def genSplit (sep : GoString) : Nat → GoString → List GoString
  | 0, s => [s]
  | cuts + 1, s =>
    match Index s sep with
    | none => [s]
    | some m => s.take m :: genSplit sep cuts (s.drop (m + sep.length))

/-- The function `strings.SplitN(s, sep, n)` for `n > 0` and a non-empty `sep`: at most `n` pieces,
the last one being the unsplit remainder. -/
def SplitN (s sep : GoString) (n : Nat) : List GoString := genSplit sep (n - 1) s

/-- The function `strings.Split(s, sep)` for a non-empty `sep`: `genSplit` with `n = Count(s, sep) + 1`
pieces.  A non-empty separator occurs at most `len(s)` times without overlap and the loop
stops at the first miss, so `len(s)` cuts are allowed here in place of `Count(s, sep)`. -/
def Split (s sep : GoString) : List GoString := genSplit sep s.length s

/-! ## `bufio.Scanner` -/

/-- Errors `parseHTTPRequest` can return. -/
inductive Error where
  /-- The error of `os.Open`. -/
  | openFailed
  /-- An error (other than `io.EOF`) of a read of the file. -/
  | readFailed
  /-- The error `bufio.ErrTooLong` ("bufio.Scanner: token too long"). -/
  | tooLong
  deriving DecidableEq, Repr

/-- An opened file as the scanner reads it: the bytes its reads deliver, and whether the
reads end with `io.EOF` (`readErr = none`) or with another error. -/
structure File where
  data : GoString
  readErr : Option Error := none

/-- The constant `bufio.MaxScanTokenSize`, the largest size a scanner's buffer grows to. -/
def MaxScanTokenSize : Nat := 64 * 1024

/-- The function `bufio.dropCR`: drop one trailing `\r`. -/
def dropCR (data : GoString) : GoString :=
  if data.getLast? = some 13 then data.dropLast else data

/-- What a `bufio.Scanner` delivers: the tokens of the successive `Scan()` / `Text()` calls
and the final `Err()`. -/
structure Scanned where
  lines : List GoString
  err : Option Error

/-- The scanner with the `ScanLines` splitter, run to the end over the bytes `rest`, `cur`
being the bytes (latest first) of the line read so far.  A `\n` ends a line, which is
delivered with one trailing `\r` dropped; bytes left at the end of the input are a last line;
the scanner gives up with `ErrTooLong` once `MaxScanTokenSize` bytes of one line fill its
buffer without a `\n` among them. -/
def scanFrom (readErr : Option Error) : GoString → GoString → Scanned
  | cur, [] => if cur.isEmpty then ⟨[], readErr⟩ else ⟨[dropCR cur.reverse], readErr⟩
  | cur, b :: rest =>
    if b = 10 then
      let sc := scanFrom readErr [] rest
      ⟨dropCR cur.reverse :: sc.lines, sc.err⟩
    else if cur.length + 1 ≥ MaxScanTokenSize then ⟨[], some Error.tooLong⟩
    else scanFrom readErr (b :: cur) rest

/-- The scanner `bufio.NewScanner(file)` run to the end. -/
def NewScanner (file : File) : Scanned := scanFrom file.readErr [] file.data

/-! ## `parseHTTPRequest` -/

/-- A Go `map[string]string`: the value stored under each key, if any. -/
abbrev Headers := GoString → Option GoString

/-- The statement `headers[k] = v`. -/
def Headers.set (h : Headers) (k v : GoString) : Headers :=
  fun k' => if k' = k then some v else h k'

/-- The result `make(map[string]string)`. -/
def Headers.empty : Headers := fun _ => none

/-- The variables of the scan loop of `parseHTTPRequest`. -/
structure ParseState where
  method : GoString
  url : GoString
  headers : Headers
  body : GoString
  inBody : Bool

/-- The variables as declared before the loop. -/
def ParseState.init : ParseState :=
  { method := [], url := [], headers := Headers.empty, body := [], inBody := false }

/-- One iteration of `for scanner.Scan()` with `line := scanner.Text()`. -/
def step (st : ParseState) (line : GoString) : ParseState :=
  if !st.inBody && Contains line (str " HTTP/") then
    match Split line (str " ") with
    | m :: u :: _ => { st with method := m, url := u }
    | _ => st
  else if !st.inBody && line.isEmpty then
    { st with inBody := true }
  else if !st.inBody then
    match SplitN line (str ": ") 2 with
    | [k, v] => { st with headers := st.headers.set k v }
    | _ => st
  else
    { st with body := st.body ++ line }

/-- The four values `parseHTTPRequest` returns next to a nil error. -/
structure Request where
  method : GoString
  url : GoString
  headers : Headers
  body : GoString

/-- The end of `parseHTTPRequest`, after the loop and the `scanner.Err()` check: the URL
gets `"https://" + host` in front when the map has the key `Host`. -/
def finish (st : ParseState) : Request :=
  match st.headers (str "Host") with
  | some host =>
    { method := st.method, url := str "https://" ++ host ++ st.url,
      headers := st.headers, body := st.body }
  | none =>
    { method := st.method, url := st.url, headers := st.headers, body := st.body }

/-- The body of `parseHTTPRequest` from `scanner := bufio.NewScanner(file)` on, as a function of
what the scanner delivers: the lines `lines`, then the end of the scan with `Err() = scanErr`. -/
def parseScanned (lines : List GoString) (scanErr : Option Error) : Except Error Request :=
  let st := lines.foldl step ParseState.init
  match scanErr with
  | some e => .error e
  | none => .ok (finish st)

/-- The function `parseHTTPRequest(filename)`, `opened` being the result of `os.Open(filename)`. -/
def parseHTTPRequest (opened : Except Error File) : Except Error Request :=
  match opened with
  | .error e => .error e
  | .ok file =>
    let sc := NewScanner file
    parseScanned sc.lines sc.err

/-! ## `wrapText` -/

/-- The constant `maxLineLength`. -/
def maxLineLength : Nat := 100

/-- The loop `for len(text) > maxLength` of `wrapText` and the statements after it; `none`
when the loop has not ended after `fuel` iterations. -/
def wrapLoop (maxLength : Nat) : Nat → GoString → GoString → Option GoString
  | 0, result, text => if text.length > maxLength then none else some (result ++ text)
  | fuel + 1, result, text =>
    if text.length > maxLength then
      wrapLoop maxLength fuel (result ++ (text.take maxLength ++ str "\n")) (text.drop maxLength)
    else some (result ++ text)

/-- The function `wrapText(text, maxLength)` for `maxLength ≥ 0`.  Every iteration of the loop
with `maxLength > 0` shortens `text`, so `len(text)` iterations are enough; with `maxLength = 0`
and a non-empty text the loop never ends, which is the result `none`. -/
def wrapText (text : GoString) (maxLength : Nat) : Option GoString :=
  if text.length ≤ maxLength then some text
  else wrapLoop maxLength text.length [] text

/-! ## Files and their lines -/

/-- A text of 250 bytes `A`. -/
def text250 : GoString := List.replicate 250 65

/-- A line of 65537 bytes `a`. -/
def line65537 : GoString := List.replicate 65537 97

/-- The lines a file ends with when its last bytes `last` have no `\n` behind them: one
line, or none when there are no such bytes. -/
def lastLine (last : GoString) : List GoString := if last.isEmpty then [] else [last]

/-- The bytes of a file whose lines `ls` each end with `\n`, followed by the bytes `last`. -/
def fileOf (ls : List GoString) (last : GoString) : GoString :=
  (ls.map (fun l => l ++ [10])).flatten ++ last

/-- A line as the scanner can deliver it whole: it has no `\n` in it and is shorter than
`MaxScanTokenSize`, a trailing `\r` counted. -/
def shortLine (l : GoString) : Prop := (∀ b ∈ l, b ≠ 10) ∧ l.length < MaxScanTokenSize

/-! ## Vocabulary of the specification -/

/-- The header phase of a transcript: its lines before the first blank line. -/
def headerPhase (lines : List GoString) : List GoString :=
  lines.takeWhile (fun l => !l.isEmpty)

/-- The lines that follow the first blank line of a transcript. -/
def bodyLines (lines : List GoString) : List GoString :=
  (lines.dropWhile (fun l => !l.isEmpty)).drop 1

/-- A line that contains the token `" HTTP/"`. -/
def hasHTTP (line : GoString) : Bool := Contains line (str " HTTP/")

/-- The request line of a transcript in the words of the specification: the first line of
the header phase that contains `" HTTP/"`. -/
def requestLine (lines : List GoString) : Option GoString :=
  (headerPhase lines).find? hasHTTP

/-- The space-separated tokens of a line, counted from `0`; a missing token is empty. -/
def token (line : GoString) (i : Nat) : GoString := (Split line (str " ")).getD i []

/-- A line of the form `k ++ ": " ++ v`, cut at its first `": "`, as the pair `(k, v)`. -/
def headerOf (line : GoString) : Option (GoString × GoString) :=
  match Index line (str ": ") with
  | some i => some (line.take i, line.drop (i + 2))
  | none => none

/-- The value of a line of the form `k ++ ": " ++ v` for the given key `k`. -/
def valueFor (k : GoString) (line : GoString) : Option GoString :=
  match headerOf line with
  | some (k', v) => if k' = k then some v else none
  | none => none

/-- The value `v` of the last line of `hs` that has the form `k ++ ": " ++ v`. -/
def lastValue (hs : List GoString) (k : GoString) : Option GoString :=
  hs.reverse.findSome? (valueFor k)

/-- The header lines of a transcript in the words of the specification: the lines of the
header phase other than the request line (its first line containing `" HTTP/"`). -/
def headerLines : List GoString → List GoString
  | [] => []
  | l :: ls =>
    if l.isEmpty then []
    else if hasHTTP l then headerPhase ls
    else l :: headerLines ls

/-! ## Lemmas on the library functions and on the scan loop -/

theorem str_space : str " " = [32] := by decide
theorem str_http : str " HTTP/" = 32 :: str "HTTP/" := by decide

theorem genSplit_ne_nil (sep : GoString) (n : Nat) (s : GoString) : genSplit sep n s ≠ [] := by
  cases n with
  | zero => simp [genSplit]
  | succ n =>
    simp only [genSplit]
    cases Index s sep <;> simp

theorem index_head_of_index (a : Byte) (t : GoString) :
    ∀ s : GoString, (Index s (a :: t)).isSome → (Index s [a]).isSome := by
  intro s
  induction s with
  | nil => simp [Index]
  | cons b bs ih =>
    intro h
    simp only [Index, HasPrefix] at h ⊢
    by_cases hp : (a :: t).isPrefixOf (b :: bs) = true
    · have hba : a = b := by
        simp [List.isPrefixOf] at hp
        exact hp.1
      subst hba
      simp [List.isPrefixOf]
    · simp only [hp] at h
      by_cases hq : [a].isPrefixOf (b :: bs) = true
      · simp [hq]
      · simp only [hq]
        simp at h ⊢
        exact ih (by simpa using h)

theorem index_isSome_length (sep : GoString) (hsep : sep ≠ []) :
    ∀ s : GoString, (Index s sep).isSome → 0 < s.length := by
  intro s h
  cases s with
  | nil =>
    cases sep with
    | nil => exact absurd rfl hsep
    | cons a t => simp [Index] at h
  | cons b bs => simp

/-- A line that contains `" HTTP/"` has at least two space-separated tokens. -/
theorem split_of_hasHTTP (line : GoString) (h : hasHTTP line = true) :
    ∃ m u rest, Split line (str " ") = m :: u :: rest := by
  unfold hasHTTP Contains at h
  rw [str_http] at h
  have h1 := index_head_of_index 32 (str "HTTP/") line h
  have hlen := index_isSome_length [32] (by simp) line h1
  unfold Split
  rw [str_space]
  obtain ⟨n, hn⟩ : ∃ n, line.length = n + 1 := ⟨line.length - 1, by omega⟩
  rw [hn]
  simp only [genSplit]
  cases hI : Index line [32] with
  | none => simp [hI] at h1
  | some m =>
    simp only
    have hne := genSplit_ne_nil [32] n (List.drop (m + [32].length) line)
    cases hg : genSplit [32] n (List.drop (m + [32].length) line) with
    | nil => exact absurd hg hne
    | cons u rest => exact ⟨_, _, _, rfl⟩

theorem hasHTTP_nil : hasHTTP [] = false := by decide

theorem step_request (st : ParseState) (line m u : GoString) (rest : List GoString)
    (hb : st.inBody = false) (h : hasHTTP line = true)
    (hs : Split line (str " ") = m :: u :: rest) :
    step st line = { st with method := m, url := u } := by
  unfold hasHTTP at h
  simp [step, hb, h, hs]

theorem splitN_two (line : GoString) :
    SplitN line (str ": ") 2 =
      match headerOf line with
      | some (k, v) => [k, v]
      | none => [line] := by
  have h2 : (str ": ").length = 2 := by decide
  simp only [SplitN, genSplit, headerOf, h2]
  cases Index line (str ": ") <;> rfl

theorem step_header (st : ParseState) (line : GoString)
    (hb : st.inBody = false) (h : hasHTTP line = false) (hne : line.isEmpty = false) :
    step st line =
      match headerOf line with
      | some (k, v) => { st with headers := st.headers.set k v }
      | none => st := by
  unfold hasHTTP at h
  simp only [step, hb, h, hne, splitN_two]
  cases hh : headerOf line with
  | none =>
    cases line with
    | nil => simp at hne
    | cons b bs => simp
  | some kv => simp

theorem step_blank (st : ParseState) (hb : st.inBody = false) :
    step st [] = { st with inBody := true } := by
  have h : Contains [] (str " HTTP/") = false := by decide
  simp [step, hb, h]

theorem step_body (st : ParseState) (line : GoString) (hb : st.inBody = true) :
    step st line = { st with body := st.body ++ line } := by
  simp [step, hb]

theorem foldl_body (ls : List GoString) :
    ∀ st : ParseState, st.inBody = true →
      ls.foldl step st = { st with body := st.body ++ ls.flatten } := by
  induction ls with
  | nil => intro st _; simp
  | cons l ls ih =>
    intro st hb
    rw [List.foldl_cons, step_body st l hb, ih { st with body := st.body ++ l } hb]
    simp

theorem lastValue_cons (l : GoString) (hs : List GoString) (k : GoString) :
    lastValue (l :: hs) k =
      match lastValue hs k with
      | some v => some v
      | none => valueFor k l := by
  unfold lastValue
  rw [List.reverse_cons, List.findSome?_append]
  cases List.findSome? (valueFor k) hs.reverse with
  | none => simp [List.findSome?]; cases valueFor k l <;> rfl
  | some v => simp

theorem step_header_get (st : ParseState) (line k : GoString)
    (hb : st.inBody = false) (h : hasHTTP line = false) (hne : line.isEmpty = false) :
    (step st line).headers k =
      match valueFor k line with
      | some v => some v
      | none => st.headers k := by
  rw [step_header st line hb h hne]
  unfold valueFor
  cases hh : headerOf line with
  | none => simp
  | some kv =>
    obtain ⟨k', v⟩ := kv
    simp only [Headers.set]
    by_cases hk : k = k'
    · subst hk; simp
    · have hk' : ¬ k' = k := fun e => hk e.symm
      simp [hk, hk']

theorem step_header_rest (st : ParseState) (line : GoString)
    (hb : st.inBody = false) (h : hasHTTP line = false) (hne : line.isEmpty = false) :
    (step st line).inBody = false ∧ (step st line).body = st.body ∧
      (step st line).method = st.method ∧ (step st line).url = st.url := by
  rw [step_header st line hb h hne]
  cases headerOf line with
  | none => simp [hb]
  | some kv => simp [hb]

theorem step_request_rest (st : ParseState) (line : GoString)
    (hb : st.inBody = false) (h : hasHTTP line = true) :
    (step st line).inBody = false ∧ (step st line).body = st.body ∧
      (step st line).headers = st.headers := by
  obtain ⟨m, u, rest, hs⟩ := split_of_hasHTTP line h
  rw [step_request st line m u rest hb h hs]
  simp [hb]

/-- Over lines of the header phase the loop stays in the header phase and leaves the body
untouched. -/
theorem foldl_header_inv (hs : List GoString) :
    ∀ st : ParseState, st.inBody = false → (∀ l ∈ hs, l.isEmpty = false) →
      (hs.foldl step st).inBody = false ∧ (hs.foldl step st).body = st.body := by
  induction hs with
  | nil => intro st hb _; simp [hb]
  | cons l ls ih =>
    intro st hb hne
    rw [List.foldl_cons]
    have hl := hne l (List.mem_cons_self _ _)
    have hls : ∀ x ∈ ls, x.isEmpty = false := fun x hx => hne x (List.mem_cons_of_mem _ hx)
    cases hh : hasHTTP l with
    | true =>
      obtain ⟨h1, h2, _⟩ := step_request_rest st l hb hh
      obtain ⟨h3, h4⟩ := ih (step st l) h1 hls
      exact ⟨h3, h4.trans h2⟩
    | false =>
      obtain ⟨h1, h2, _⟩ := step_header_rest st l hb hh hl
      obtain ⟨h3, h4⟩ := ih (step st l) h1 hls
      exact ⟨h3, h4.trans h2⟩

/-- The map after lines of the header phase: under each key the value of the last line
without `" HTTP/"` that has the form `k: v`, or else what the map held before. -/
theorem foldl_header_get (hs : List GoString) (k : GoString) :
    ∀ st : ParseState, st.inBody = false → (∀ l ∈ hs, l.isEmpty = false) →
      (hs.foldl step st).headers k =
        match lastValue (hs.filter (fun l => !hasHTTP l)) k with
        | some v => some v
        | none => st.headers k := by
  induction hs with
  | nil => intro st _ _; simp [lastValue]
  | cons l ls ih =>
    intro st hb hne
    rw [List.foldl_cons]
    have hl := hne l (List.mem_cons_self _ _)
    have hls : ∀ x ∈ ls, x.isEmpty = false := fun x hx => hne x (List.mem_cons_of_mem _ hx)
    cases hh : hasHTTP l with
    | true =>
      obtain ⟨h1, _, h3⟩ := step_request_rest st l hb hh
      rw [ih (step st l) h1 hls, h3]
      simp [List.filter, hh]
    | false =>
      obtain ⟨h1, _⟩ := step_header_rest st l hb hh hl
      rw [ih (step st l) h1 hls, step_header_get st l k hb hh hl]
      simp only [List.filter, hh, Bool.not_false]
      rw [lastValue_cons]
      cases lastValue (List.filter (fun l => !hasHTTP l) ls) k <;> rfl

/-- Lines of the header phase without `" HTTP/"` leave the method and the URL as they are. -/
theorem foldl_header_keep (hs : List GoString) :
    ∀ st : ParseState, st.inBody = false → (∀ l ∈ hs, l.isEmpty = false) →
      (∀ l ∈ hs, hasHTTP l = false) →
      (hs.foldl step st).method = st.method ∧ (hs.foldl step st).url = st.url := by
  induction hs with
  | nil => intro st _ _ _; simp
  | cons l ls ih =>
    intro st hb hne hno
    rw [List.foldl_cons]
    have hl := hne l (List.mem_cons_self _ _)
    have hls : ∀ x ∈ ls, x.isEmpty = false := fun x hx => hne x (List.mem_cons_of_mem _ hx)
    obtain ⟨h1, _, h3, h4⟩ := step_header_rest st l hb (hno l (List.mem_cons_self _ _)) hl
    obtain ⟨h5, h6⟩ := ih (step st l) h1 hls (fun x hx => hno x (List.mem_cons_of_mem _ hx))
    exact ⟨h5.trans h3, h6.trans h4⟩

theorem headerPhase_nonempty (lines : List GoString) :
    ∀ l ∈ headerPhase lines, l.isEmpty = false := by
  intro l hl
  have := List.mem_takeWhile_imp hl
  simpa using this

/-- A transcript is its header phase, followed (when it has a blank line) by the first blank
line and the body lines. -/
theorem lines_eq (lines : List GoString) :
    (lines = headerPhase lines ∧ bodyLines lines = []) ∨
      lines = headerPhase lines ++ [] :: bodyLines lines := by
  induction lines with
  | nil => left; simp [headerPhase, bodyLines]
  | cons l ls ih =>
    cases hl : l.isEmpty with
    | true =>
      right
      have : l = [] := by simpa using hl
      subst this
      simp [headerPhase, bodyLines]
    | false =>
      have e1 : headerPhase (l :: ls) = l :: headerPhase ls := by
        simp [headerPhase, List.takeWhile, hl]
      have e2 : bodyLines (l :: ls) = bodyLines ls := by
        simp [bodyLines, List.dropWhile, hl]
      rw [e1, e2]
      rcases ih with ⟨h1, h2⟩ | h
      · left; exact ⟨by rw [← h1], h2⟩
      · right; rw [List.cons_append, ← h]

/-- The loop over a whole transcript: method, URL and map are those reached at the end of the
header phase, and the body is the concatenation of the body lines. -/
theorem foldl_lines (lines : List GoString) :
    (lines.foldl step ParseState.init).method
        = ((headerPhase lines).foldl step ParseState.init).method ∧
    (lines.foldl step ParseState.init).url
        = ((headerPhase lines).foldl step ParseState.init).url ∧
    (lines.foldl step ParseState.init).headers
        = ((headerPhase lines).foldl step ParseState.init).headers ∧
    (lines.foldl step ParseState.init).body = (bodyLines lines).flatten := by
  obtain ⟨hb, hbody⟩ := foldl_header_inv (headerPhase lines) ParseState.init rfl
    (headerPhase_nonempty lines)
  have hbody0 : ((headerPhase lines).foldl step ParseState.init).body = [] := hbody
  rcases lines_eq lines with ⟨h1, h2⟩ | h
  · rw [← h1, h2]
    rw [← h1] at hbody0
    simp [hbody0]
  · generalize hst : (headerPhase lines).foldl step ParseState.init = st at hb hbody0 ⊢
    have e : lines.foldl step ParseState.init
        = (bodyLines lines).foldl step (step st []) := by
      conv_lhs => rw [h]
      rw [List.foldl_append, List.foldl_cons, hst]
    rw [e, step_blank st hb, foldl_body _ _ rfl]
    simp [hbody0]

theorem token_of_split (line m u : GoString) (rest : List GoString)
    (hs : Split line (str " ") = m :: u :: rest) : token line 0 = m ∧ token line 1 = u := by
  simp [token, hs]

/-- The method and URL at the end of a header phase are the first two tokens of its last
line containing `" HTTP/"`. -/
theorem foldl_header_request (pre post : List GoString) (req : GoString)
    (hne : ∀ l ∈ pre ++ req :: post, l.isEmpty = false)
    (hreq : hasHTTP req = true) (hpost : ∀ l ∈ post, hasHTTP l = false) :
    ((pre ++ req :: post).foldl step ParseState.init).method = token req 0 ∧
    ((pre ++ req :: post).foldl step ParseState.init).url = token req 1 := by
  obtain ⟨m, u, rest, hs⟩ := split_of_hasHTTP req hreq
  obtain ⟨ht0, ht1⟩ := token_of_split req m u rest hs
  rw [List.foldl_append, List.foldl_cons]
  obtain ⟨hb, _⟩ := foldl_header_inv pre ParseState.init rfl
    (fun l hl => hne l (List.mem_append_left _ hl))
  generalize pre.foldl step ParseState.init = st at hb
  have hpne : ∀ l ∈ post, l.isEmpty = false :=
    fun l hl => hne l (List.mem_append_right _ (List.mem_cons_of_mem _ hl))
  have hst := step_request st req m u rest hb hreq hs
  obtain ⟨h1, h2⟩ := foldl_header_keep post (step st req) (by rw [hst]; exact hb) hpne hpost
  rw [h1, h2, hst, ht0, ht1]
  exact ⟨rfl, rfl⟩

theorem finish_fields (st : ParseState) :
    (finish st).method = st.method ∧ (finish st).headers = st.headers ∧
      (finish st).body = st.body ∧
      (finish st).url =
        match st.headers (str "Host") with
        | some host => str "https://" ++ host ++ st.url
        | none => st.url := by
  unfold finish
  cases st.headers (str "Host") <;> simp

theorem filter_single (pre post : List GoString) (req : GoString)
    (hreq : hasHTTP req = true) (hone : ∀ l ∈ pre ++ post, hasHTTP l = false) :
    (pre ++ req :: post).filter (fun l => !hasHTTP l) = pre ++ post := by
  have hpre : pre.filter (fun l => !hasHTTP l) = pre :=
    List.filter_eq_self.mpr (fun l hl => by simp [hone l (List.mem_append_left _ hl)])
  have hpost : post.filter (fun l => !hasHTTP l) = post :=
    List.filter_eq_self.mpr (fun l hl => by simp [hone l (List.mem_append_right _ hl)])
  rw [List.filter_append, List.filter_cons, hpre, hpost]
  simp [hreq]

/-- The result for a transcript whose header phase has exactly one line containing
`" HTTP/"`, the request line `req`: method and target are its first two tokens, the map holds
under each key the value of the last other line of the header phase of the form `k: v`, the
body is the concatenation of the body lines, and the URL is the target, after
`"https://" + host` when the map has the key `Host`. -/
theorem parse_single_request_line (lines pre post : List GoString) (req : GoString)
    (hhp : headerPhase lines = pre ++ req :: post)
    (hreq : hasHTTP req = true) (hone : ∀ l ∈ pre ++ post, hasHTTP l = false) :
    ∃ r, parseScanned lines none = .ok r ∧
      r.method = token req 0 ∧
      (∀ k, r.headers k = lastValue (pre ++ post) k) ∧
      r.body = (bodyLines lines).flatten ∧
      r.url =
        match lastValue (pre ++ post) (str "Host") with
        | some host => str "https://" ++ host ++ token req 1
        | none => token req 1 := by
  obtain ⟨hm, hu, hh, hb⟩ := foldl_lines lines
  have hne := headerPhase_nonempty lines
  rw [hhp] at hm hu hh hne
  obtain ⟨h1, h2⟩ := foldl_header_request pre post req hne hreq
    (fun l hl => hone l (List.mem_append_right _ hl))
  have hget : ∀ k, (lines.foldl step ParseState.init).headers k = lastValue (pre ++ post) k := by
    intro k
    rw [hh, foldl_header_get _ k ParseState.init rfl hne, filter_single pre post req hreq hone]
    cases lastValue (pre ++ post) k <;> rfl
  obtain ⟨f1, f2, f3, f4⟩ := finish_fields (lines.foldl step ParseState.init)
  refine ⟨finish (lines.foldl step ParseState.init), rfl, ?_, ?_, ?_, ?_⟩
  · rw [f1, hm, h1]
  · intro k; rw [f2, hget k]
  · rw [f3, hb]
  · rw [f4, hget (str "Host"), hu, h2]

/-- The result for a transcript whose header phase has no line containing `" HTTP/"`: method
and target stay empty. -/
theorem parse_no_request_line (lines : List GoString)
    (hno : ∀ l ∈ headerPhase lines, hasHTTP l = false) :
    ∃ r, parseScanned lines none = .ok r ∧
      r.method = [] ∧
      (∀ k, r.headers k = lastValue (headerPhase lines) k) ∧
      r.body = (bodyLines lines).flatten ∧
      r.url =
        match lastValue (headerPhase lines) (str "Host") with
        | some host => str "https://" ++ host
        | none => [] := by
  obtain ⟨hm, hu, hh, hb⟩ := foldl_lines lines
  have hne := headerPhase_nonempty lines
  obtain ⟨h1, h2⟩ := foldl_header_keep (headerPhase lines) ParseState.init rfl hne hno
  have hfil : (headerPhase lines).filter (fun l => !hasHTTP l) = headerPhase lines :=
    List.filter_eq_self.mpr (fun l hl => by simp [hno l hl])
  have hget : ∀ k, (lines.foldl step ParseState.init).headers k
      = lastValue (headerPhase lines) k := by
    intro k
    rw [hh, foldl_header_get _ k ParseState.init rfl hne, hfil]
    cases lastValue (headerPhase lines) k <;> rfl
  obtain ⟨f1, f2, f3, f4⟩ := finish_fields (lines.foldl step ParseState.init)
  refine ⟨finish (lines.foldl step ParseState.init), rfl, ?_, ?_, ?_, ?_⟩
  · rw [f1, hm, h1]; rfl
  · intro k; rw [f2, hget k]
  · rw [f3, hb]
  · rw [f4, hget (str "Host"), hu, h2]
    cases lastValue (headerPhase lines) (str "Host") <;> simp [ParseState.init]

theorem headerOf_none (line : GoString) (h : Contains line (str ": ") = false) :
    headerOf line = none := by
  unfold Contains at h
  unfold headerOf
  cases hI : Index line (str ": ") with
  | none => rfl
  | some i => simp [hI] at h

/-- Non-blank lines with neither `" HTTP/"` nor `": "` leave the variables of the loop as
they are in the header phase. -/
theorem foldl_noop (P : List GoString) :
    ∀ st : ParseState, st.inBody = false →
      (∀ l ∈ P, l.isEmpty = false ∧ hasHTTP l = false ∧ Contains l (str ": ") = false) →
      P.foldl step st = st := by
  induction P with
  | nil => intro st _ _; rfl
  | cons l ls ih =>
    intro st hb h
    obtain ⟨h1, h2, h3⟩ := h l (List.mem_cons_self _ _)
    have hst : step st l = st := by
      rw [step_header st l hb h2 h1, headerOf_none l h3]
    rw [List.foldl_cons, hst]
    exact ih st hb (fun x hx => h x (List.mem_cons_of_mem _ hx))

/-! ## The scanner and the length of lines -/

theorem maxScanTokenSize_eq : MaxScanTokenSize = 65536 := rfl

/-- The scanner over a line of fewer than `MaxScanTokenSize` bytes that ends with `\n`:
the line is delivered and the scan goes on behind it. -/
theorem scanFrom_line (e : Option Error) (rest : GoString) :
    ∀ (l cur : GoString), (∀ b ∈ l, b ≠ 10) → cur.length + l.length < 65536 →
      scanFrom e cur (l ++ 10 :: rest) =
        ⟨dropCR (cur.reverse ++ l) :: (scanFrom e [] rest).lines, (scanFrom e [] rest).err⟩ := by
  intro l
  induction l with
  | nil => intro cur _ _; simp [scanFrom]
  | cons b l ih =>
    intro cur hb hlen
    have hb10 : b ≠ 10 := hb b (List.mem_cons_self _ _)
    have hl : cur.length + 1 + l.length < 65536 := by
      simp only [List.length_cons] at hlen; omega
    have hsmall : ¬ cur.length + 1 ≥ MaxScanTokenSize := by rw [maxScanTokenSize_eq]; omega
    rw [List.cons_append, scanFrom]
    simp only [hb10, if_false, hsmall]
    rw [ih (b :: cur) (fun x hx => hb x (List.mem_cons_of_mem _ hx))
      (by simpa using hl)]
    simp

/-- The scanner over the last bytes of a file, fewer than `MaxScanTokenSize` and without
`\n`: they are delivered as a last line unless there are none. -/
theorem scanFrom_last (e : Option Error) :
    ∀ (l cur : GoString), (∀ b ∈ l, b ≠ 10) → cur.length + l.length < 65536 →
      scanFrom e cur l =
        if (cur.reverse ++ l).isEmpty then ⟨[], e⟩ else ⟨[dropCR (cur.reverse ++ l)], e⟩ := by
  intro l
  induction l with
  | nil =>
    intro cur _ _
    cases cur <;> simp [scanFrom]
  | cons b l ih =>
    intro cur hb hlen
    have hb10 : b ≠ 10 := hb b (List.mem_cons_self _ _)
    have hl : cur.length + 1 + l.length < 65536 := by
      simp only [List.length_cons] at hlen; omega
    have hsmall : ¬ cur.length + 1 ≥ MaxScanTokenSize := by rw [maxScanTokenSize_eq]; omega
    rw [scanFrom]
    simp only [hb10, if_false, hsmall]
    rw [ih (b :: cur) (fun x hx => hb x (List.mem_cons_of_mem _ hx))
      (by simpa using hl)]
    simp

/-- The scanner over `MaxScanTokenSize` bytes or more without `\n`: it stops with
`ErrTooLong`. -/
theorem scanFrom_long (e : Option Error) (rest : GoString) :
    ∀ (l cur : GoString), (∀ b ∈ l, b ≠ 10) → cur.length < 65536 →
      65536 ≤ cur.length + l.length →
      scanFrom e cur (l ++ rest) = ⟨[], some Error.tooLong⟩ := by
  intro l
  induction l with
  | nil => intro cur _ h1 h2; simp only [List.length_nil] at h2; omega
  | cons b l ih =>
    intro cur hb h1 h2
    have hb10 : b ≠ 10 := hb b (List.mem_cons_self _ _)
    simp only [List.length_cons] at h2
    rw [List.cons_append, scanFrom]
    simp only [hb10, if_false]
    by_cases hbig : cur.length + 1 ≥ MaxScanTokenSize
    · simp only [hbig, if_true]
    · simp only [hbig, if_false]
      rw [maxScanTokenSize_eq] at hbig
      exact ih (b :: cur) (fun x hx => hb x (List.mem_cons_of_mem _ hx))
        (by simp only [List.length_cons]; omega) (by simp only [List.length_cons]; omega)

/-- The scanner over a file made of lines shorter than `MaxScanTokenSize`: it delivers every
line, with one trailing `\r` dropped, and ends without an error. -/
theorem scan_short_lines (last : GoString)
    (hlast : (∀ b ∈ last, b ≠ 10) ∧ last.length < 65536) :
    ∀ ls : List GoString, (∀ l ∈ ls, (∀ b ∈ l, b ≠ 10) ∧ l.length < 65536) →
      scanFrom none [] (fileOf ls last) =
        ⟨(ls ++ lastLine last).map dropCR, none⟩ := by
  intro ls
  unfold fileOf
  induction ls with
  | nil =>
    intro _
    simp only [List.map_nil, List.flatten_nil, List.nil_append]
    rw [scanFrom_last none last [] hlast.1 (by simpa using hlast.2)]
    unfold lastLine
    cases last <;> simp
  | cons l ls ih =>
    intro h
    obtain ⟨h1, h2⟩ := h l (List.mem_cons_self _ _)
    have e : ((l :: ls).map (fun l => l ++ [10])).flatten ++ last
        = l ++ 10 :: ((ls.map (fun l => l ++ [10])).flatten ++ last) := by simp
    rw [e, scanFrom_line none _ l [] h1 (by simpa using h2),
      ih (fun x hx => h x (List.mem_cons_of_mem _ hx))]
    simp

/-- The scanner over a file with a line of `MaxScanTokenSize` bytes or more behind shorter
lines: it ends with `ErrTooLong`. -/
theorem scan_long_line (long rest : GoString)
    (hlong : (∀ b ∈ long, b ≠ 10) ∧ 65536 ≤ long.length) :
    ∀ ls : List GoString, (∀ l ∈ ls, (∀ b ∈ l, b ≠ 10) ∧ l.length < 65536) →
      (scanFrom none [] (fileOf ls (long ++ rest))).err = some Error.tooLong := by
  intro ls
  unfold fileOf
  induction ls with
  | nil =>
    intro _
    simp only [List.map_nil, List.flatten_nil, List.nil_append]
    rw [scanFrom_long none rest long [] hlong.1 (by simp) (by simpa using hlong.2)]
  | cons l ls ih =>
    intro h
    obtain ⟨h1, h2⟩ := h l (List.mem_cons_self _ _)
    have e : ((l :: ls).map (fun l => l ++ [10])).flatten ++ (long ++ rest)
        = l ++ 10 :: ((ls.map (fun l => l ++ [10])).flatten ++ (long ++ rest)) := by simp
    rw [e, scanFrom_line none _ l [] h1 (by simpa using h2)]
    exact ih (fun x hx => h x (List.mem_cons_of_mem _ hx))

theorem parse_of_scan (file : File) (lines : List GoString) (err : Option Error)
    (h : scanFrom file.readErr [] file.data = ⟨lines, err⟩) :
    parseHTTPRequest (.ok file) = parseScanned lines err := by
  simp only [parseHTTPRequest, NewScanner, h]

theorem parse_of_scan_error (file : File) (e : Error)
    (h : (scanFrom file.readErr [] file.data).err = some e) :
    parseHTTPRequest (.ok file) = .error e := by
  simp only [parseHTTPRequest, NewScanner, parseScanned, h]

theorem dropCR_append_cr (l : GoString) : dropCR (l ++ [13]) = l := by
  simp [dropCR]

theorem dropCR_of_not_cr (l : GoString) (h : l.getLast? ≠ some 13) : dropCR l = l := by
  simp [dropCR, h]

theorem index_replicate_none (a c : Byte) (t : GoString) (h : a ≠ c) :
    ∀ n : Nat, Index (List.replicate n c) (a :: t) = none := by
  intro n
  induction n with
  | zero => simp [Index]
  | succ n ih =>
    rw [List.replicate_succ, Index, ih]
    simp [HasPrefix, List.isPrefixOf, h]

theorem line65537_length : line65537.length = 65537 := by
  unfold line65537; rw [List.length_replicate]

theorem line65537_no_newline : ∀ b ∈ line65537, b ≠ 10 := by
  intro b hb
  unfold line65537 at hb
  rw [List.eq_of_mem_replicate hb]
  decide

theorem line65537_no_http : hasHTTP line65537 = false := by
  unfold hasHTTP Contains line65537
  rw [str_http, index_replicate_none 32 97 _ (by decide)]
  rfl

/-- The scanner over a file that starts with the lines `P`, each shorter than
`MaxScanTokenSize`: it delivers them, with one trailing `\r` dropped, and goes on with the
rest of the file. -/
theorem scan_prefix (e : Option Error) (rest : GoString) :
    ∀ P : List GoString, (∀ l ∈ P, (∀ b ∈ l, b ≠ 10) ∧ l.length < 65536) →
      scanFrom e [] (fileOf P rest) =
        ⟨P.map dropCR ++ (scanFrom e [] rest).lines, (scanFrom e [] rest).err⟩ := by
  intro P
  unfold fileOf
  induction P with
  | nil => intro _; simp
  | cons l ls ih =>
    intro h
    obtain ⟨h1, h2⟩ := h l (List.mem_cons_self _ _)
    have e1 : ((l :: ls).map (fun l => l ++ [10])).flatten ++ rest
        = l ++ 10 :: ((ls.map (fun l => l ++ [10])).flatten ++ rest) := by simp
    rw [e1, scanFrom_line e _ l [] h1 (by simpa using h2),
      ih (fun x hx => h x (List.mem_cons_of_mem _ hx))]
    simp

/-- A file of lines shorter than `MaxScanTokenSize`, read without an I/O error, is parsed as
its lines with one trailing `\r` dropped from each. -/
theorem parse_short_file (ls : List GoString) (last : GoString)
    (hls : ∀ l ∈ ls, shortLine l) (hlast : shortLine last) :
    parseHTTPRequest (.ok { data := fileOf ls last, readErr := none })
      = parseScanned ((ls ++ lastLine last).map dropCR) none :=
  parse_of_scan _ _ _ (scan_short_lines last hlast ls hls)

/-- A file that goes on with the line `line65537` behind lines shorter than
`MaxScanTokenSize` is not parsed: the result is `ErrTooLong`. -/
theorem parse_long_file (ls : List GoString) (rest : GoString)
    (hls : ∀ l ∈ ls, shortLine l) :
    parseHTTPRequest (.ok { data := fileOf ls (line65537 ++ rest), readErr := none })
      = .error Error.tooLong :=
  parse_of_scan_error _ _
    (scan_long_line line65537 rest
      ⟨line65537_no_newline, by rw [line65537_length]; omega⟩ ls hls)

theorem parse_long_last (ls : List GoString) (hls : ∀ l ∈ ls, shortLine l) :
    parseHTTPRequest (.ok { data := fileOf ls line65537, readErr := none })
      = .error Error.tooLong := by
  have h := parse_long_file ls [] hls
  rw [List.append_nil] at h
  exact h

theorem parse_long_first (T : GoString) :
    parseHTTPRequest (.ok { data := fileOf [line65537] T, readErr := none })
      = .error Error.tooLong := by
  have h := parse_long_file [] (10 :: T) (by simp)
  have e : fileOf [line65537] T = fileOf [] (line65537 ++ 10 :: T) := by simp [fileOf]
  rw [e]
  exact h

/-! ## The claims -/

/-- C1, evaluated on the file with the lines `GET /a HTTP/1.1`, `Host: h`,
`Via: 1.1 HTTP/1.1 proxy` and a blank line: its request line (the first line with
`" HTTP/"`) has the second token `/a` and its last `Host` header has the value `h`, yet the
URL returned is `https://h1.1`, built from the second token of the `Via` line. -/
theorem host_url_takes_later_http_line :
    (NewScanner { data := str "GET /a HTTP/1.1\nHost: h\nVia: 1.1 HTTP/1.1 proxy\n\n" }).lines
        = [str "GET /a HTTP/1.1", str "Host: h", str "Via: 1.1 HTTP/1.1 proxy", []] ∧
    requestLine [str "GET /a HTTP/1.1", str "Host: h", str "Via: 1.1 HTTP/1.1 proxy", []]
        = some (str "GET /a HTTP/1.1") ∧
    token (str "GET /a HTTP/1.1") 1 = str "/a" ∧
    lastValue (headerLines
        [str "GET /a HTTP/1.1", str "Host: h", str "Via: 1.1 HTTP/1.1 proxy", []]) (str "Host")
        = some (str "h") ∧
    ∃ r, parseHTTPRequest
        (.ok { data := str "GET /a HTTP/1.1\nHost: h\nVia: 1.1 HTTP/1.1 proxy\n\n" }) = .ok r ∧
      r.url = str "https://h1.1" ∧ r.url ≠ str "https://" ++ str "h" ++ str "/a" :=
  ⟨by decide, by decide, by decide, by decide, _, rfl, by decide, by decide⟩

/-- C3 fails as stated: the file with the lines `POST /upload HTTP/1.1`, `Host: h`, a
blank line and a body line of 65537 bytes is a transcript whose body lines concatenate to
those 65537 bytes, yet `parseHTTPRequest` returns the error `bufio.ErrTooLong` and no
body. -/
theorem long_body_line_gives_no_body :
    bodyLines [str "POST /upload HTTP/1.1", str "Host: h", [], line65537] = [line65537] ∧
    parseHTTPRequest
        (.ok { data := fileOf [str "POST /upload HTTP/1.1", str "Host: h", []] line65537,
               readErr := none })
      = .error Error.tooLong ∧
    ¬ ∃ r, parseHTTPRequest
        (.ok { data := fileOf [str "POST /upload HTTP/1.1", str "Host: h", []] line65537,
               readErr := none }) = .ok r ∧
      r.body = (bodyLines [str "POST /upload HTTP/1.1", str "Host: h", [], line65537]).flatten := by
  have herr := parse_long_last [str "POST /upload HTTP/1.1", str "Host: h", []]
    (by simp [shortLine, str, MaxScanTokenSize])
  refine ⟨by simp [bodyLines, str], herr, ?_⟩
  rintro ⟨r, hr, _⟩
  rw [herr] at hr
  cases hr

/-- C3 as amended: for a file read without an I/O error whose lines are all shorter than
65536 bytes (`bufio.MaxScanTokenSize`), `parseHTTPRequest` returns no error and the body is
the concatenation, in order and with nothing in between, of the lines that follow the first
blank line, each without its `\n` and without one trailing `\r` (empty when there is no
blank line). -/
theorem body_concatenates_body_lines (ls : List GoString) (last : GoString)
    (hls : ∀ l ∈ ls, shortLine l) (hlast : shortLine last) :
    ∃ r, parseHTTPRequest (.ok { data := fileOf ls last, readErr := none }) = .ok r ∧
      r.body = (bodyLines ((ls ++ lastLine last).map dropCR)).flatten := by
  rw [parse_short_file ls last hls hlast]
  refine ⟨finish (((ls ++ lastLine last).map dropCR).foldl step ParseState.init), rfl, ?_⟩
  rw [(finish_fields _).2.2.1, (foldl_lines _).2.2.2]

/-- The amended C3 at the file
`POST /f HTTP/1.1\r\nHost: h\r\n\r\nfoo\r\nbar\nGET /x HTTP/1.1\r\n\r\nbaz`: the
body lines `foo`, `bar`, `GET /x HTTP/1.1`, a blank line and `baz` give the body
`foobarGET /x HTTP/1.1baz`. -/
theorem body_concatenates_body_lines_witness :
    fileOf [str "POST /f HTTP/1.1\r", str "Host: h\r", str "\r", str "foo\r", str "bar",
        str "GET /x HTTP/1.1\r", str "\r"] (str "baz")
      = str "POST /f HTTP/1.1\r\nHost: h\r\n\r\nfoo\r\nbar\nGET /x HTTP/1.1\r\n\r\nbaz" ∧
    ∃ r, parseHTTPRequest
        (.ok { data := fileOf [str "POST /f HTTP/1.1\r", str "Host: h\r", str "\r",
                 str "foo\r", str "bar", str "GET /x HTTP/1.1\r", str "\r"] (str "baz"),
               readErr := none }) = .ok r ∧
      r.body = str "foobarGET /x HTTP/1.1baz" := by
  obtain ⟨r, hr, hbody⟩ := body_concatenates_body_lines
    [str "POST /f HTTP/1.1\r", str "Host: h\r", str "\r", str "foo\r", str "bar",
      str "GET /x HTTP/1.1\r", str "\r"] (str "baz")
    (by simp [shortLine, str, MaxScanTokenSize]) (by simp [shortLine, str, MaxScanTokenSize])
  exact ⟨by decide, r, hr, hbody.trans (by decide)⟩

/-- C4, evaluated on the file with the lines `GET /a HTTP/1.1`, `Via: 1.1 HTTP/1.1 proxy`
and a blank line: the header line `Via: 1.1 HTTP/1.1 proxy` has the form `k: v` with the key
`Via`, yet the map returned has no key `Via`. -/
theorem header_with_http_not_stored :
    (NewScanner { data := str "GET /a HTTP/1.1\nVia: 1.1 HTTP/1.1 proxy\n\n" }).lines
        = [str "GET /a HTTP/1.1", str "Via: 1.1 HTTP/1.1 proxy", []] ∧
    headerLines [str "GET /a HTTP/1.1", str "Via: 1.1 HTTP/1.1 proxy", []]
        = [str "Via: 1.1 HTTP/1.1 proxy"] ∧
    lastValue (headerLines [str "GET /a HTTP/1.1", str "Via: 1.1 HTTP/1.1 proxy", []])
        (str "Via") = some (str "1.1 HTTP/1.1 proxy") ∧
    ∃ r, parseHTTPRequest
        (.ok { data := str "GET /a HTTP/1.1\nVia: 1.1 HTTP/1.1 proxy\n\n" }) = .ok r ∧
      r.headers (str "Via") = none :=
  ⟨by decide, by decide, by decide, _, rfl, by decide⟩

/-- C5, evaluated on the file with the lines `GET /a HTTP/1.1`, `Via: 1.1 HTTP/1.1 proxy`
and a blank line: it has no `Host` header and the second token of its request line is `/a`,
yet the URL returned is `1.1`, the second token of the `Via` line. -/
theorem url_without_host_takes_later_http_line :
    (NewScanner { data := str "GET /a HTTP/1.1\nVia: 1.1 HTTP/1.1 proxy\n\n" }).lines
        = [str "GET /a HTTP/1.1", str "Via: 1.1 HTTP/1.1 proxy", []] ∧
    requestLine [str "GET /a HTTP/1.1", str "Via: 1.1 HTTP/1.1 proxy", []]
        = some (str "GET /a HTTP/1.1") ∧
    token (str "GET /a HTTP/1.1") 1 = str "/a" ∧
    lastValue (headerPhase [str "GET /a HTTP/1.1", str "Via: 1.1 HTTP/1.1 proxy", []])
        (str "Host") = none ∧
    ∃ r, parseHTTPRequest
        (.ok { data := str "GET /a HTTP/1.1\nVia: 1.1 HTTP/1.1 proxy\n\n" }) = .ok r ∧
      r.url = str "1.1" :=
  ⟨by decide, by decide, by decide, by decide, _, rfl, by decide⟩

/-- C6 fails as stated: for the file with the lines `GET http://other.example/p HTTP/1.1`,
`Host: h.example` and a blank line, the URL returned is
`https://h.examplehttp://other.example/p`, not `https://h.example/p`: the scheme and host
of the target are still there.  With the further header line `Via: 1.1 HTTP/1.1 proxy` the
URL returned is `https://h.example1.1`, and with a body line of 65537 bytes behind the blank
line no URL is returned but the error `bufio.ErrTooLong`. -/
theorem absolute_target_not_discarded :
    (NewScanner { data := str "GET http://other.example/p HTTP/1.1\nHost: h.example\n\n" }).lines
        = [str "GET http://other.example/p HTTP/1.1", str "Host: h.example", []] ∧
    token (str "GET http://other.example/p HTTP/1.1") 1
        = str "http" ++ str "://" ++ str "other.example" ++ str "/p" ∧
    (∃ r, parseHTTPRequest
        (.ok { data := str "GET http://other.example/p HTTP/1.1\nHost: h.example\n\n" }) = .ok r ∧
      r.url = str "https://h.examplehttp://other.example/p" ∧
      r.url ≠ str "https://" ++ str "h.example" ++ str "/p") ∧
    (∃ r, parseHTTPRequest
        (.ok { data := str ("GET http://other.example/p HTTP/1.1\nHost: h.example\n"
          ++ "Via: 1.1 HTTP/1.1 proxy\n\n") }) = .ok r ∧
      r.url = str "https://h.example1.1") ∧
    parseHTTPRequest
        (.ok { data := fileOf [str "GET http://other.example/p HTTP/1.1", str "Host: h.example",
                 []] line65537,
               readErr := none })
      = .error Error.tooLong :=
  ⟨by decide, by decide, ⟨_, rfl, by decide, by decide⟩, ⟨_, rfl, by decide⟩,
   parse_long_last [str "GET http://other.example/p HTTP/1.1", str "Host: h.example", []]
     (by simp [shortLine, str, MaxScanTokenSize])⟩

/-- C6 as amended: for a file read without an I/O error whose lines are all shorter than
65536 bytes (`bufio.MaxScanTokenSize`) and whose header phase has exactly one line containing
`" HTTP/"`, the request line, with an absolute URL `scheme://rest` as its second token, and
whose other header-phase lines have `H` as the value of the last `Host: ` line,
`parseHTTPRequest` returns no error and the URL returned is `"https://" ++ H` followed by the
whole target, scheme and host included. -/
theorem absolute_target_kept (ls : List GoString) (last : GoString)
    (pre post : List GoString) (req scheme rest H : GoString)
    (hls : ∀ l ∈ ls, shortLine l) (hlast : shortLine last)
    (hhp : headerPhase ((ls ++ lastLine last).map dropCR) = pre ++ req :: post)
    (hreq : hasHTTP req = true)
    (hone : ∀ l ∈ pre ++ post, hasHTTP l = false)
    (habs : token req 1 = scheme ++ str "://" ++ rest)
    (hhost : lastValue (pre ++ post) (str "Host") = some H) :
    ∃ r, parseHTTPRequest (.ok { data := fileOf ls last, readErr := none }) = .ok r ∧
      r.url = str "https://" ++ H ++ (scheme ++ str "://" ++ rest) := by
  rw [parse_short_file ls last hls hlast]
  obtain ⟨r, hr, _, _, _, hurl⟩ :=
    parse_single_request_line ((ls ++ lastLine last).map dropCR) pre post req hhp hreq hone
  refine ⟨r, hr, ?_⟩
  rw [hurl, hhost, habs]

/-- The amended C6 at the file
`GET http://other.example/p HTTP/1.1\r\nHost: h.example\r\n\r\nx`. -/
theorem absolute_target_kept_witness :
    fileOf [str "GET http://other.example/p HTTP/1.1\r", str "Host: h.example\r", str "\r"]
        (str "x")
      = str "GET http://other.example/p HTTP/1.1\r\nHost: h.example\r\n\r\nx" ∧
    ∃ r, parseHTTPRequest
        (.ok { data := fileOf [str "GET http://other.example/p HTTP/1.1\r",
                 str "Host: h.example\r", str "\r"] (str "x"),
               readErr := none }) = .ok r ∧
      r.url = str "https://" ++ str "h.example" ++ (str "http" ++ str "://" ++ str "other.example/p") :=
  ⟨by decide,
   absolute_target_kept
    [str "GET http://other.example/p HTTP/1.1\r", str "Host: h.example\r", str "\r"] (str "x")
    [] [str "Host: h.example"] (str "GET http://other.example/p HTTP/1.1")
    (str "http") (str "other.example/p") (str "h.example")
    (by simp [shortLine, str, MaxScanTokenSize]) (by simp [shortLine, str, MaxScanTokenSize])
    (by decide) (by decide) (by decide) (by decide) (by decide)⟩

/-- C9, evaluated on the file with the lines `GET /a HTTP/1.1`, `Via: 1.1 HTTP/1.1 proxy`
and a blank line: the first line containing `" HTTP/"` is `GET /a HTTP/1.1`, with the
tokens `GET` and `/a`, yet the method returned is `Via:` and the URL is `1.1`, and the `Via`
line is not stored as a header. -/
theorem later_http_line_overwrites_request_line :
    (NewScanner { data := str "GET /a HTTP/1.1\nVia: 1.1 HTTP/1.1 proxy\n\n" }).lines
        = [str "GET /a HTTP/1.1", str "Via: 1.1 HTTP/1.1 proxy", []] ∧
    requestLine [str "GET /a HTTP/1.1", str "Via: 1.1 HTTP/1.1 proxy", []]
        = some (str "GET /a HTTP/1.1") ∧
    token (str "GET /a HTTP/1.1") 0 = str "GET" ∧
    token (str "GET /a HTTP/1.1") 1 = str "/a" ∧
    ∃ r, parseHTTPRequest
        (.ok { data := str "GET /a HTTP/1.1\nVia: 1.1 HTTP/1.1 proxy\n\n" }) = .ok r ∧
      r.method = str "Via:" ∧ r.url = str "1.1" ∧ r.headers (str "Via") = none :=
  ⟨by decide, by decide, by decide, by decide, _, rfl, by decide, by decide, by decide⟩

/-- C10 fails as stated: the file with the lines `GET /a HTTP/1.1`, `Host: h`, a blank line
and `x` gives the method `GET`, the URL `https://h/a` and the body `x`; with a blank line
in front (it has no `" HTTP/"`) the method and URL are empty and the whole transcript is
body; with the stray line `X-Note: 1` in front (it has no `" HTTP/"`) the map has the key
`X-Note`; with a stray line of 65537 bytes `a` in front (it has no `" HTTP/"`) the result is
the error `bufio.ErrTooLong`. -/
theorem leading_lines_change_result :
    (∃ r, parseHTTPRequest (.ok { data := str "GET /a HTTP/1.1\nHost: h\n\nx" }) = .ok r ∧
      r.method = str "GET" ∧ r.url = str "https://h/a" ∧ r.body = str "x" ∧
      r.headers (str "X-Note") = none) ∧
    (hasHTTP [] = false ∧
      ∃ r, parseHTTPRequest (.ok { data := str "\nGET /a HTTP/1.1\nHost: h\n\nx" }) = .ok r ∧
        r.method = [] ∧ r.url = [] ∧ r.body = str "GET /a HTTP/1.1Host: hx") ∧
    (hasHTTP (str "X-Note: 1") = false ∧
      ∃ r, parseHTTPRequest
          (.ok { data := str "X-Note: 1\nGET /a HTTP/1.1\nHost: h\n\nx" }) = .ok r ∧
        r.headers (str "X-Note") = some (str "1")) ∧
    (hasHTTP line65537 = false ∧
      parseHTTPRequest
          (.ok { data := fileOf [line65537] (str "GET /a HTTP/1.1\nHost: h\n\nx"),
                 readErr := none })
        = .error Error.tooLong) :=
  ⟨⟨_, rfl, by decide, by decide, by decide, by decide⟩,
   ⟨by decide, _, rfl, by decide, by decide, by decide⟩,
   ⟨by decide, _, rfl, by decide⟩,
   ⟨line65537_no_http, parse_long_first _⟩⟩

/-- C10 as amended: lines in front of a transcript change nothing of the result (error,
method, URL, headers, body) when each of them is shorter than 65536 bytes
(`bufio.MaxScanTokenSize`) and, without its `\n` and one trailing `\r`, is non-blank and
contains neither `" HTTP/"` nor `": "`.  The transcript is any rest of the file, read with or
without an error. -/
theorem leading_noop_lines_ignored (P : List GoString) (T : GoString) (readErr : Option Error)
    (h : ∀ l ∈ P, shortLine l ∧ (dropCR l).isEmpty = false ∧ hasHTTP (dropCR l) = false ∧
      Contains (dropCR l) (str ": ") = false) :
    parseHTTPRequest (.ok { data := fileOf P T, readErr := readErr })
      = parseHTTPRequest (.ok { data := T, readErr := readErr }) := by
  have hscan := scan_prefix readErr T P (fun l hl => (h l hl).1)
  have hnoop : ∀ l ∈ P.map dropCR,
      l.isEmpty = false ∧ hasHTTP l = false ∧ Contains l (str ": ") = false := by
    intro l hl
    obtain ⟨x, hx, rfl⟩ := List.mem_map.mp hl
    exact (h x hx).2
  rw [parse_of_scan _ _ _ hscan]
  simp only [parseHTTPRequest, NewScanner, parseScanned]
  rw [List.foldl_append, foldl_noop (P.map dropCR) ParseState.init rfl hnoop]

/-- The amended C10 with the stray lines `# captured` and `--` in front of the transcript
`GET /a HTTP/1.1`, `Host: h`, blank line, `x`. -/
theorem leading_noop_lines_ignored_witness :
    fileOf [str "# captured\r", str "--"] (str "GET /a HTTP/1.1\nHost: h\n\nx")
      = str "# captured\r\n--\nGET /a HTTP/1.1\nHost: h\n\nx" ∧
    parseHTTPRequest
        (.ok { data := fileOf [str "# captured\r", str "--"] (str "GET /a HTTP/1.1\nHost: h\n\nx"),
               readErr := none })
      = parseHTTPRequest (.ok { data := str "GET /a HTTP/1.1\nHost: h\n\nx", readErr := none }) :=
  ⟨by decide,
   leading_noop_lines_ignored [str "# captured\r", str "--"]
    (str "GET /a HTTP/1.1\nHost: h\n\nx") none
    (by simp [shortLine, str, MaxScanTokenSize, dropCR]; decide)⟩

/-- C7 fails as stated: the file with the lines `POST /upload HTTP/1.1`, `Host: h`, a blank
line and a one-line body of 65537 bytes opens and is read without an I/O error, yet
`parseHTTPRequest` returns the error `bufio.ErrTooLong`. -/
theorem long_body_line_rejected :
    line65537.length = 65537 ∧
    parseHTTPRequest
        (.ok { data := fileOf [str "POST /upload HTTP/1.1", str "Host: h", []] line65537,
               readErr := none })
      = .error Error.tooLong := by
  have hlen : line65537.length = 65537 := by unfold line65537; rw [List.length_replicate]
  have hnl : ∀ b ∈ line65537, b ≠ 10 := by
    intro b hb
    unfold line65537 at hb
    rw [List.eq_of_mem_replicate hb]
    decide
  refine ⟨hlen, parse_of_scan_error _ _ ?_⟩
  have h := scan_long_line line65537 [] ⟨hnl, by rw [hlen]; omega⟩
    [str "POST /upload HTTP/1.1", str "Host: h", []] (by simp [str])
  rw [List.append_nil] at h
  exact h

/-- C7 as amended: a file that opens and is read without an I/O error is parsed without an
error when each of its lines is shorter than 65536 bytes (`bufio.MaxScanTokenSize`; the
`\n` not counted, a trailing `\r` counted), the result being the one for its lines with
one trailing `\r` dropped; when a line of 65536 bytes or more comes behind such lines,
`parseHTTPRequest` returns `bufio.ErrTooLong`. -/
theorem line_length_limit (ls : List GoString) (hls : ∀ l ∈ ls, shortLine l) :
    (∀ last : GoString, shortLine last →
      ∃ r, parseHTTPRequest (.ok { data := fileOf ls last, readErr := none }) = .ok r ∧
        parseScanned ((ls ++ lastLine last).map dropCR) none = .ok r) ∧
    (∀ long rest : GoString, (∀ b ∈ long, b ≠ 10) → MaxScanTokenSize ≤ long.length →
      parseHTTPRequest (.ok { data := fileOf ls (long ++ rest), readErr := none })
        = .error Error.tooLong) := by
  have hls' : ∀ l ∈ ls, (∀ b ∈ l, b ≠ 10) ∧ l.length < 65536 := hls
  constructor
  · intro last hlast
    have h := scan_short_lines last hlast ls hls'
    refine ⟨finish (((ls ++ lastLine last).map dropCR).foldl step ParseState.init), ?_, rfl⟩
    rw [parse_of_scan _ _ _ h]
    rfl
  · intro long rest h1 h2
    exact parse_of_scan_error _ _ (scan_long_line long rest ⟨h1, h2⟩ ls hls')

/-- The amended C7 at the file `GET /a HTTP/1.1\r\n`, `Host: h\r\n`, `\r\n`, `x`, which
is parsed like the lines `GET /a HTTP/1.1`, `Host: h`, a blank line and `x`, and at the same
lines followed by a line of 65537 bytes. -/
theorem line_length_limit_witness :
    (∃ r, parseHTTPRequest
        (.ok { data := fileOf [str "GET /a HTTP/1.1\r", str "Host: h\r", str "\r"] (str "x"),
               readErr := none }) = .ok r ∧
      parseScanned (([str "GET /a HTTP/1.1\r", str "Host: h\r", str "\r"]
        ++ lastLine (str "x")).map dropCR) none = .ok r) ∧
    parseHTTPRequest
        (.ok { data := fileOf [str "GET /a HTTP/1.1\r", str "Host: h\r", str "\r"]
                 (line65537 ++ []),
               readErr := none }) = .error Error.tooLong :=
  ⟨(line_length_limit [str "GET /a HTTP/1.1\r", str "Host: h\r", str "\r"]
      (by simp [shortLine, str, MaxScanTokenSize])).1 (str "x")
      (by simp [shortLine, str, MaxScanTokenSize]),
   (line_length_limit [str "GET /a HTTP/1.1\r", str "Host: h\r", str "\r"]
      (by simp [shortLine, str, MaxScanTokenSize])).2 line65537 []
      (by intro b hb; unfold line65537 at hb; rw [List.eq_of_mem_replicate hb]; decide)
      (by unfold line65537; rw [List.length_replicate]; decide)⟩

/-! ## `wrapText` -/

theorem intercalate_cons_cons (sep a b : GoString) (l : List GoString) :
    sep.intercalate (a :: b :: l) = a ++ sep ++ sep.intercalate (b :: l) := by
  simp [List.intercalate]

/-- The loop of `wrapText` at width 100, on a non-empty text that the fuel covers: it ends,
having added to `result` the segments of the text joined by `"\n"`. -/
theorem wrapLoop_segments :
    ∀ (fuel : Nat) (result text : GoString),
      0 < text.length → text.length ≤ (fuel + 1) * 100 →
      ∃ segs : List GoString, segs ≠ [] ∧
        wrapLoop 100 fuel result text = some (result ++ (str "\n").intercalate segs) ∧
        segs.length = (text.length + 99) / 100 ∧
        (∀ s ∈ segs, s.length ≤ 100) ∧
        segs.flatten = text := by
  have hlast : ∀ (result text : GoString), 0 < text.length → text.length ≤ 100 →
      ∃ segs : List GoString, segs ≠ [] ∧
        some (result ++ text) = some (result ++ (str "\n").intercalate segs) ∧
        segs.length = (text.length + 99) / 100 ∧
        (∀ s ∈ segs, s.length ≤ 100) ∧
        segs.flatten = text := by
    intro result text h0 h100
    refine ⟨[text], by simp, by simp [List.intercalate], ?_, ?_, by simp⟩
    · simp only [List.length_singleton]; omega
    · intro s hs
      have : s = text := by simpa using hs
      rw [this]; exact h100
  intro fuel
  induction fuel with
  | zero =>
    intro result text h0 hle
    have h100 : text.length ≤ 100 := by omega
    have hnot : ¬ text.length > 100 := by omega
    simp only [wrapLoop, hnot, if_false]
    exact hlast result text h0 h100
  | succ fuel ih =>
    intro result text h0 hle
    by_cases hgt : text.length > 100
    · simp only [wrapLoop, hgt, if_true]
      have hdrop : (text.drop 100).length = text.length - 100 := List.length_drop 100 text
      obtain ⟨segs, hne, hrun, hcount, hlen, hflat⟩ :=
        ih (result ++ (text.take 100 ++ str "\n")) (text.drop 100)
          (by rw [hdrop]; omega) (by rw [hdrop]; omega)
      refine ⟨text.take 100 :: segs, by simp, ?_, ?_, ?_, ?_⟩
      · rw [hrun]
        cases segs with
        | nil => exact absurd rfl hne
        | cons b l => rw [intercalate_cons_cons]; simp
      · rw [List.length_cons, hcount, hdrop]; omega
      · intro s hs
        rcases List.mem_cons.mp hs with h | h
        · rw [h, List.length_take]; omega
        · exact hlen s h
      · rw [List.flatten_cons, hflat, List.take_append_drop]
    · have h100 : text.length ≤ 100 := by omega
      simp only [wrapLoop, hgt, if_false]
      exact hlast result text h0 h100

/-- C2: `wrapText(text, 100)` returns a text of at most 100 bytes unchanged; for a longer
text of `L` bytes it returns `ceil(L/100)` segments, each of at most 100 bytes, joined by
single `"\n"` bytes, and the segments concatenated in order are the text. -/
theorem wrapText_segments (text : GoString) :
    (text.length ≤ 100 → wrapText text maxLineLength = some text) ∧
    (100 < text.length →
      ∃ segs : List GoString,
        wrapText text maxLineLength = some ((str "\n").intercalate segs) ∧
        segs.length = (text.length + 99) / 100 ∧
        (∀ s ∈ segs, s.length ≤ 100) ∧
        segs.flatten = text) := by
  constructor
  · intro h
    simp [wrapText, maxLineLength, h]
  · intro h
    have hnot : ¬ text.length ≤ 100 := by omega
    obtain ⟨segs, _, hrun, hcount, hlen, hflat⟩ :=
      wrapLoop_segments text.length [] text (by omega) (by omega)
    refine ⟨segs, ?_, hcount, hlen, hflat⟩
    simp only [wrapText, maxLineLength, hnot, if_false]
    rw [hrun]; simp

/-- C2 at the text `abc` and at `text250`, 250 bytes `A`, which comes back in three
segments. -/
theorem wrapText_segments_witness :
    wrapText (str "abc") maxLineLength = some (str "abc") ∧
    ∃ segs : List GoString,
      wrapText text250 maxLineLength = some ((str "\n").intercalate segs) ∧
      segs.length = (text250.length + 99) / 100 ∧
      (∀ s ∈ segs, s.length ≤ 100) ∧
      segs.flatten = text250 :=
  ⟨(wrapText_segments (str "abc")).1 (by simp [str]),
   (wrapText_segments text250).2 (by unfold text250; rw [List.length_replicate]; omega)⟩

end Ripit
